import Mathlib

/-!
Verification of the radiosonde-to-CZML conversion pipeline (radiosonde.py).

Shallow embedding conventions:
* Python `datetime` values are modeled as integers (`Timestamp := ℤ`);
  `datetime.min` / `datetime.max` become the constants `dtMin` / `dtMax`,
  and every timestamp parseable with the fixed format
  `YYYY-MM-DD HH:MM:SS` lies in the closed range `[dtMin, dtMax]`.
* Python floats obtained from the numeric-string fields are modeled as
  rationals (`ℚ`); the record fields `gps_lat`, `gps_lon`, `gps_alt`
  carry `Option ℚ` where `none` models a non-numeric string (so that
  `float(...)` raises `ValueError`).
* `gps_time` carries `Option (Option Timestamp)`: `none` models a record
  lacking the field, `some none` a present-but-unparseable string (so
  that `strptime` raises `ValueError`), `some (some t)` a string parsing
  to `t`.
* Python exceptions are modeled with `Except RSError`; there is no
  try/except around the per-record loops in the source, so an error at
  one record propagates out of the whole loop.
* Python dicts (insertion ordered) are modeled as association lists.
-/

abbrev Timestamp := ℤ

/-- Model of `datetime.datetime.min` (0001-01-01 00:00:00), as seconds. -/
def dtMin : Timestamp := 0

/-- Model of `datetime.datetime.max`; any `strptime`-parseable timestamp
is at most this value. -/
def dtMax : Timestamp := 315537897599

/-- One habhub position sample (the fields the core reads).
`parsed_time` models the `'parsed_time'` dict key that `select_vehicles`
adds: `none` means the key is absent (lookup raises `KeyError`). -/
structure PosRecord where
  vehicle : String
  gps_lat : Option ℚ
  gps_lon : Option ℚ
  gps_alt : Option ℚ
  gps_time : Option (Option Timestamp)
  parsed_time : Option Timestamp := none
  deriving Repr, DecidableEq

/-- Errors raised by the pipeline: `malformedCoord` models `ValueError`
from `float(...)`, `badTimestamp` models `ValueError` from
`datetime.strptime`, `missingKey` models `KeyError` from a dict lookup. -/
inductive RSError where
  | malformedCoord
  | badTimestamp
  | missingKey
  deriving Repr, DecidableEq

/-- `BoundingBox.__init__` with an explicit coordinate list (the gpxpy
track path is not exercised by the core pipeline). -/
structure BoundingBox where
  min_lon : ℚ
  max_lon : ℚ
  min_lat : ℚ
  max_lat : ℚ
  min_ele : ℚ
  max_ele : ℚ
  deriving Repr, DecidableEq

/-- The default construction `BoundingBox()`:
`coord_list=[0, 360, -90, 90]` (minlon maxlon minlat maxlat),
`height_range=[0, 100000]`. -/
def defaultBBox : BoundingBox :=
  { min_lon := 0, max_lon := 360, min_lat := -90, max_lat := 90,
    min_ele := 0, max_ele := 100000 }

/-- `BoundingBox.within_box(lat, lon, ele)`. -/
def BoundingBox.within_box (b : BoundingBox) (lat lon ele : ℚ) : Bool :=
  decide (ele ≥ b.min_ele) && decide (ele ≤ b.max_ele) &&
  decide (lat ≥ b.min_lat) && decide (lat ≤ b.max_lat) &&
  decide (lon ≥ b.min_lon) && decide (lon ≤ b.max_lon)

/-- `BoundingBox.habhub_pos_in_bbox(p)`:
`within_box(float(p["gps_lat"]), float(p["gps_lon"]), float(p["gps_alt"]))`.
A non-numeric field makes `float` raise `ValueError`. -/
def BoundingBox.habhub_pos_in_bbox (b : BoundingBox) (p : PosRecord) :
    Except RSError Bool :=
  match p.gps_lat, p.gps_lon, p.gps_alt with
  | some lat, some lon, some alt => .ok (b.within_box lat lon alt)
  | _, _, _ => .error .malformedCoord

/-- The `vehicles` dict of `select_vehicles`: a Python dict mapping
vehicle name to position list, modeled as an insertion-ordered
association list. -/
abbrev VehicleMap := List (String × List PosRecord)

/-- Pass 1 body: `vehicles[p['vehicle']] = []` (dict assignment: update
in place if the key exists, else append at the end). -/
def seedVehicle (m : VehicleMap) (v : String) : VehicleMap :=
  if m.any fun kv => kv.1 == v then
    m.map fun kv => if kv.1 == v then (kv.1, []) else kv
  else m ++ [(v, [])]

/-- Pass 1 of `select_vehicles`: seed every distinct vehicle with `[]`. -/
def seedVehicles (ps : List PosRecord) : VehicleMap :=
  ps.foldl (fun m p => seedVehicle m p.vehicle) []

/-- `vehicles[p['vehicle']].append(p)`: a `KeyError` if the key is
absent (pass 1 guarantees it is present). -/
def appendVehicle (m : VehicleMap) (v : String) (p : PosRecord) :
    Except RSError VehicleMap :=
  if m.any fun kv => kv.1 == v then
    .ok (m.map fun kv => if kv.1 == v then (kv.1, kv.2 ++ [p]) else kv)
  else .error .missingKey

/-- The mutable state threaded through `select_vehicles`: the `vehicles`
dict plus the session span fields `self.first_seen` / `self.last_seen`
(initialized in `__init__` to `datetime.max` / `datetime.min`). -/
structure SelectState where
  vehicles : VehicleMap
  first_seen : Timestamp
  last_seen : Timestamp
  deriving Repr, DecidableEq

/-- One iteration of the pass-2 loop of `select_vehicles` on record `p`:
bbox test (may raise), then if `'gps_time' in p` parse it (may raise),
attach `parsed_time`, widen the session span, apply the time window
(`continue` when outside), and append to the vehicle's list. -/
def selectStep (bbox : BoundingBox) (after before : Timestamp)
    (st : SelectState) (p : PosRecord) : Except RSError SelectState :=
  match bbox.habhub_pos_in_bbox p with
  | .error e => .error e
  | .ok inBox =>
    if inBox then
      match p.gps_time with
      | some parseResult =>
        match parseResult with
        | none => .error .badTimestamp
        | some t =>
          let pTagged := { p with parsed_time := some t }
          let last := if st.last_seen < t then t else st.last_seen
          let first := if st.first_seen > t then t else st.first_seen
          if t < after || t > before then
            .ok { st with first_seen := first, last_seen := last }
          else
            match appendVehicle st.vehicles pTagged.vehicle pTagged with
            | .error e => .error e
            | .ok vs => .ok { vehicles := vs, first_seen := first, last_seen := last }
      | none =>
        match appendVehicle st.vehicles p.vehicle p with
        | .error e => .error e
        | .ok vs => .ok { st with vehicles := vs }
    else .ok st

/-- The pass-2 loop: iterate `selectStep` over the position list; an
exception at any record aborts the loop (no try/except in the source). -/
def selectLoop (bbox : BoundingBox) (after before : Timestamp) :
    SelectState → List PosRecord → Except RSError SelectState
  | st, [] => .ok st
  | st, p :: ps =>
    match selectStep bbox after before st p with
    | .error e => .error e
    | .ok st2 => selectLoop bbox after before st2 ps

/-- `SondeObservations.select_vehicles`: seed the vehicles dict from all
records (pass 1), then run the collation loop (pass 2) starting from the
constructor-initialized session span. -/
def select_vehicles (bbox : BoundingBox) (after before : Timestamp)
    (poslist : List PosRecord) : Except RSError SelectState :=
  selectLoop bbox after before
    { vehicles := seedVehicles poslist, first_seen := dtMax, last_seen := dtMin }
    poslist

/-- One element of the flat coordinate sequence handed to the CZML sink:
either a formatted timestamp or a float coordinate. -/
inductive CoordValue where
  | time (t : Timestamp)
  | num (q : ℚ)
  deriving Repr, DecidableEq

/-- The four values one record contributes in `gen_position_list`:
`format_datetime_like(p['parsed_time'])` (a `KeyError` if the key is
absent), then `float(p["gps_lon"])`, `float(p["gps_lat"])`,
`float(p["gps_alt"])`. -/
def recordCoords (p : PosRecord) : Except RSError (List CoordValue) :=
  match p.parsed_time with
  | none => .error .missingKey
  | some t =>
    match p.gps_lon, p.gps_lat, p.gps_alt with
    | some lon, some lat, some alt =>
      .ok [.time t, .num lon, .num lat, .num alt]
    | _, _, _ => .error .malformedCoord

/-- `SondeObservations.gen_position_list(plist)`: for each record in
order, append the timestamp then extend with lon, lat, alt. -/
def gen_position_list : List PosRecord → Except RSError (List CoordValue)
  | [] => .ok []
  | p :: ps =>
    match recordCoords p with
    | .error e => .error e
    | .ok cs =>
      match gen_position_list ps with
      | .error e => .error e
      | .ok rest => .ok (cs ++ rest)

/-- The accumulator of the loop in `gen_habhub_vehicle_track`: running
`start` / `stop` (initialized to `datetime.max` / `datetime.min`) and
the (dead) local `results` list, which is still built and can raise. -/
structure TrackAcc where
  start : Timestamp
  stop : Timestamp
  results : List CoordValue
  deriving Repr, DecidableEq

/-- One iteration of the loop in `gen_habhub_vehicle_track`:
`t = p['parsed_time']` (a `KeyError` if absent), widen `start`/`stop`,
then append the formatted time and the three float coordinates. -/
def trackStep (acc : TrackAcc) (p : PosRecord) : Except RSError TrackAcc :=
  match p.parsed_time with
  | none => .error .missingKey
  | some t =>
    let stop := if acc.stop < t then t else acc.stop
    let start := if acc.start > t then t else acc.start
    match p.gps_lon, p.gps_lat, p.gps_alt with
    | some lon, some lat, some alt =>
      .ok { start := start, stop := stop,
            results := acc.results ++ [.time t, .num lon, .num lat, .num alt] }
    | _, _, _ => .error .malformedCoord

/-- The loop of `gen_habhub_vehicle_track` over the position list. -/
def trackLoop : TrackAcc → List PosRecord → Except RSError TrackAcc
  | acc, [] => .ok acc
  | acc, p :: ps =>
    match trackStep acc p with
    | .error e => .error e
    | .ok acc2 => trackLoop acc2 ps

/-- The output of `gen_habhub_vehicle_track` restricted to the data the
core computes: the packet id, the availability interval
`TimeInterval(start, stop)`, and the `cartographicDegrees` position
list; the styling parameters (color, path width, model) are cosmetic
and forwarded opaquely. -/
structure Packet where
  id : String
  availStart : Timestamp
  availEnd : Timestamp
  position : List CoordValue
  deriving Repr, DecidableEq

/-- `SondeObservations.gen_habhub_vehicle_track(v, poslist, model)`:
run the start/stop loop, then `gen_position_list`, and build the packet
with `availability = TimeInterval(start, stop)`. -/
def gen_habhub_vehicle_track (v : String) (poslist : List PosRecord) :
    Except RSError Packet :=
  match trackLoop { start := dtMax, stop := dtMin, results := [] } poslist with
  | .error e => .error e
  | .ok acc =>
    match gen_position_list poslist with
    | .error e => .error e
    | .ok pl =>
      .ok { id := v, availStart := acc.start, availEnd := acc.stop, position := pl }

/-- The loop of `gen_czml` over the vehicles dict: keep only vehicles
with a non-empty position list and export each as a packet. -/
def czmlLoop : List Packet → VehicleMap → Except RSError (List Packet)
  | packets, [] => .ok packets
  | packets, (v, poslist) :: rest =>
    if poslist.length > 0 then
      match gen_habhub_vehicle_track v poslist with
      | .error e => .error e
      | .ok pk => czmlLoop (packets ++ [pk]) rest
    else czmlLoop packets rest

/-- `SondeObservations.gen_czml`: select vehicles, then export every
vehicle that has at least one accepted sample. -/
def gen_czml (bbox : BoundingBox) (after before : Timestamp)
    (poslist : List PosRecord) : Except RSError (List Packet) :=
  match select_vehicles bbox after before poslist with
  | .error e => .error e
  | .ok st => czmlLoop [] st.vehicles

/-- Python dict lookup on an association list (first matching key). -/
def lookupVal {α : Type} (d : List (String × α)) (k : String) : Option α :=
  (d.find? fun kv => kv.1 == k).map fun kv => kv.2

/-- Python `{**p, **js}`: keys of `p` in their order (values overridden
by `js` where present), then the keys of `js` not in `p`, in order. -/
def dictUnion {α : Type} (p js : List (String × α)) : List (String × α) :=
  (p.map fun kv =>
    match lookupVal js kv.1 with
    | some v => (kv.1, v)
    | none => kv) ++
  js.filter fun kv => !(p.any fun kv2 => kv2.1 == kv.1)

/-- `SondeObservations._read_json(files)`: start from `{}` and merge each
file's parse result with `p = {**p, **js}`; a file that fails to parse
(`none`) is logged and skipped, the loop continues. -/
def read_json {α : Type} (files : List (Option (List (String × α)))) :
    List (String × α) :=
  files.foldl
    (fun p doc =>
      match doc with
      | some js => dictUnion p js
      | none => p)
    []

/-- The acceptance predicate implicit in pass 2 of `select_vehicles`:
in the bounding box, and — when a `gps_time` field is present and
parseable — not strictly outside the `[after, before]` window. `false`
also covers the records on which the pass raises instead of deciding. -/
def acceptsRecord (bbox : BoundingBox) (after before : Timestamp)
    (p : PosRecord) : Bool :=
  match bbox.habhub_pos_in_bbox p with
  | .ok true =>
    match p.gps_time with
    | some (some t) => !(t < after || t > before)
    | some none => false
    | none => true
  | _ => false

/-- The record as `select_vehicles` stores it: `p['parsed_time']` set to
the parsed `gps_time` when one exists, the record unchanged otherwise. -/
def attachTime (p : PosRecord) : PosRecord :=
  match p.gps_time with
  | some (some t) => { p with parsed_time := some t }
  | _ => p

/-- The timestamps that widen the session span: parsed `gps_time` of
every record that passes the spatial test, before the window test. -/
def acceptedTimes (bbox : BoundingBox) (ps : List PosRecord) :
    List Timestamp :=
  ps.filterMap fun p =>
    match bbox.habhub_pos_in_bbox p, p.gps_time with
    | .ok true, some (some t) => some t
    | _, _ => none

/-- A stored sample the exporter can serialize without raising:
`parsed_time` present and all three coordinates numeric. -/
def wfSample (p : PosRecord) : Bool :=
  p.parsed_time.isSome && p.gps_lon.isSome && p.gps_lat.isSome && p.gps_alt.isSome

/-- The four consecutive output values one well-formed sample
contributes: timestamp, longitude, latitude, altitude. -/
def coordGroup (p : PosRecord) : List CoordValue :=
  [.time (p.parsed_time.getD 0), .num (p.gps_lon.getD 0),
   .num (p.gps_lat.getD 0), .num (p.gps_alt.getD 0)]

/-- A syntactically valid sample inside the default volume. -/
def sampleInBox : PosRecord :=
  { vehicle := "A", gps_lat := some 46, gps_lon := some 15,
    gps_alt := some 10000, gps_time := some (some 100) }

/-- A later syntactically valid sample of the same vehicle. -/
def sampleInBox2 : PosRecord :=
  { vehicle := "A", gps_lat := some 46, gps_lon := some 15,
    gps_alt := some 10500, gps_time := some (some 400) }

/-- A sample whose `gps_lon` string is non-numeric. -/
def sampleBadLon : PosRecord :=
  { vehicle := "B", gps_lat := some 46, gps_lon := none,
    gps_alt := some 10000, gps_time := some (some 100) }

/-- Numeric fields, western-hemisphere longitude -15 degrees; parses
fine but lies outside the default volume `lon ∈ [0, 360]`. -/
def sampleNegLon : PosRecord :=
  { vehicle := "A", gps_lat := some 46, gps_lon := some (-15),
    gps_alt := some 10000, gps_time := some (some 100) }

/-- An in-box sample lacking the `gps_time` field altogether. -/
def sampleNoTime : PosRecord :=
  { vehicle := "A", gps_lat := some 46, gps_lon := some 15,
    gps_alt := some 10000, gps_time := none }

/-- An in-box sample whose `gps_time` string `strptime` cannot parse. -/
def sampleBadTime : PosRecord :=
  { vehicle := "A", gps_lat := some 46, gps_lon := some 15,
    gps_alt := some 10000, gps_time := some none }

/-- A numeric sample of a second vehicle, outside the default volume
(negative longitude), so vehicle "B" collects zero accepted samples. -/
def sampleNegLonB : PosRecord :=
  { vehicle := "B", gps_lat := some 46, gps_lon := some (-15),
    gps_alt := some 10000, gps_time := some (some 100) }

/-- The packet that `gen_czml` exports for vehicle "A" from the input
`[sampleInBox, sampleNegLonB]` with the default volume and window. -/
def packetA : Packet :=
  { id := "A", availStart := 100, availEnd := 100,
    position := [CoordValue.time 100, CoordValue.num 15, CoordValue.num 46,
      CoordValue.num 10000] }

/-- `sampleInBox` as `select_vehicles` stores it, with `parsed_time`
attached. -/
def sampleStored : PosRecord := { sampleInBox with parsed_time := some 100 }

/-- The spec's description of the merge result at one key: fold over the
successfully parsed documents, a later document containing the key
entirely overwriting the value from earlier ones. -/
def specLastDocWins {α : Type} (k : String)
    (docs : List (List (String × α))) : Option α :=
  docs.foldl
    (fun acc js =>
      match lookupVal js k with
      | some v => some v
      | none => acc)
    none

theorem within_box_eq_true (b : BoundingBox) (lat lon ele : ℚ) :
    b.within_box lat lon ele = true ↔
      (b.min_ele ≤ ele ∧ ele ≤ b.max_ele ∧ b.min_lat ≤ lat ∧ lat ≤ b.max_lat ∧
        b.min_lon ≤ lon ∧ lon ≤ b.max_lon) := by
  simp [BoundingBox.within_box, and_assoc, ge_iff_le]

theorem lookupVal_nil {α : Type} (k : String) :
    lookupVal ([] : List (String × α)) k = none := rfl

theorem lookupVal_cons {α : Type} (kv : String × α) (d : List (String × α))
    (k : String) :
    lookupVal (kv :: d) k = if kv.1 == k then some kv.2 else lookupVal d k := by
  simp only [lookupVal, List.find?]
  cases h : kv.1 == k <;> simp [h]

theorem lookupVal_append {α : Type} (A B : List (String × α)) (k : String) :
    lookupVal (A ++ B) k =
      match lookupVal A k with
      | some v => some v
      | none => lookupVal B k := by
  induction A with
  | nil => simp [lookupVal_nil]
  | cons kv A ih =>
    rw [List.cons_append, lookupVal_cons, lookupVal_cons]
    cases h : kv.1 == k <;> simp [ih]

theorem lookupVal_eq_none_iff {α : Type} (d : List (String × α)) (k : String) :
    lookupVal d k = none ↔ (d.any fun kv => kv.1 == k) = false := by
  induction d with
  | nil => simp [lookupVal_nil]
  | cons kv d ih =>
    rw [lookupVal_cons]
    cases h : kv.1 == k <;> simp [h, ih]

theorem lookupVal_override_map {α : Type} (p js : List (String × α)) (k : String) :
    lookupVal
      (p.map fun kv =>
        match lookupVal js kv.1 with
        | some v => (kv.1, v)
        | none => kv) k =
      match lookupVal p k with
      | none => none
      | some w =>
        match lookupVal js k with
        | some v => some v
        | none => some w := by
  induction p with
  | nil => simp [lookupVal_nil]
  | cons kv p ih =>
    rw [List.map_cons, lookupVal_cons, lookupVal_cons]
    have hfst :
        (match lookupVal js kv.1 with
          | some v => (kv.1, v)
          | none => kv).1 = kv.1 := by
      cases lookupVal js kv.1 <;> rfl
    rw [hfst]
    cases hk : kv.1 == k
    · simp [ih]
    · have hkk : kv.1 = k := eq_of_beq hk
      subst hkk
      cases hjs : lookupVal js kv.1 <;> simp [hjs]

theorem lookupVal_filter_new {α : Type} (p js : List (String × α)) (k : String) :
    lookupVal (js.filter fun kv => !(p.any fun kv2 => kv2.1 == kv.1)) k =
      if p.any fun kv2 => kv2.1 == k then none else lookupVal js k := by
  induction js with
  | nil => simp [lookupVal_nil]
  | cons kv js ih =>
    rw [List.filter_cons]
    cases hk : kv.1 == k
    · cases hp : (p.any fun kv2 => kv2.1 == kv.1) <;>
        simp [hp, lookupVal_cons, hk, ih]
    · have hkk : kv.1 = k := eq_of_beq hk
      subst hkk
      cases hp : (p.any fun kv2 => kv2.1 == kv.1) <;>
        simp [hp, lookupVal_cons, ih]

theorem lookupVal_dictUnion {α : Type} (p js : List (String × α)) (k : String) :
    lookupVal (dictUnion p js) k =
      match lookupVal js k with
      | some v => some v
      | none => lookupVal p k := by
  rw [dictUnion, lookupVal_append, lookupVal_override_map, lookupVal_filter_new]
  cases hp : lookupVal p k
  · have hany : (p.any fun kv2 => kv2.1 == k) = false :=
      (lookupVal_eq_none_iff p k).mp hp
    rw [hany]
    cases hjs : lookupVal js k <;> simp
  · have hany : (p.any fun kv2 => kv2.1 == k) = true := by
      cases h2 : (p.any fun kv2 => kv2.1 == k)
      · rw [(lookupVal_eq_none_iff p k).mpr h2] at hp
        exact absurd hp (by simp)
      · rfl
    rw [hany]
    cases hjs : lookupVal js k <;> simp

theorem read_json_foldl {α : Type} (files : List (Option (List (String × α))))
    (p : List (String × α)) (k : String) :
    lookupVal
      (files.foldl
        (fun p doc =>
          match doc with
          | some js => dictUnion p js
          | none => p)
        p) k =
      (files.filterMap id).foldl
        (fun acc js =>
          match lookupVal js k with
          | some v => some v
          | none => acc)
        (lookupVal p k) := by
  induction files generalizing p with
  | nil => simp
  | cons doc files ih =>
    cases doc with
    | none => simp [List.foldl_cons, ih]
    | some js =>
      simp only [List.foldl_cons, List.filterMap_cons, id]
      rw [ih, lookupVal_dictUnion]

/-- C9: merging a sequence of input documents produces the shallow
top-level key union in which a later document's value entirely
overwrites an earlier document's value for the same top-level key (the
value at any key `k` is exactly the one supplied by the last
successfully parsed document containing `k`, with no element-level
merge), and a document that fails to parse contributes nothing and does
not prevent the remaining documents from being merged. -/
theorem c9_merge_last_wins_isolated_failure {α : Type}
    (files pre post : List (Option (List (String × α)))) (k : String) :
    lookupVal (read_json files) k = specLastDocWins k (files.filterMap id) ∧
    read_json (pre ++ none :: post) = read_json (pre ++ post) := by
  constructor
  · rw [read_json, specLastDocWins, read_json_foldl, lookupVal_nil]
  · rw [read_json, read_json, List.foldl_append, List.foldl_append, List.foldl_cons]

theorem if_gt_eq_min (a t : ℤ) : (if a > t then t else a) = min a t := by
  rcases lt_or_ge t a with h | h
  · rw [if_pos h, min_eq_right (le_of_lt h)]
  · rw [if_neg (not_lt.mpr h), min_eq_left h]

theorem if_lt_eq_max (a t : ℤ) : (if a < t then t else a) = max a t := by
  rcases lt_or_ge a t with h | h
  · rw [if_pos h, max_eq_right (le_of_lt h)]
  · rw [if_neg (not_lt.mpr h), max_eq_left h]

theorem selectStep_eq_time {bbox : BoundingBox} {after before : Timestamp}
    {st : SelectState} {p : PosRecord} {t : Timestamp}
    (hb : bbox.habhub_pos_in_bbox p = .ok true)
    (hg : p.gps_time = some (some t)) :
    selectStep bbox after before st p =
      (if t < after || t > before then
        .ok { st with first_seen := if st.first_seen > t then t else st.first_seen,
                      last_seen := if st.last_seen < t then t else st.last_seen }
      else
        match appendVehicle st.vehicles p.vehicle { p with parsed_time := some t } with
        | .error e => .error e
        | .ok vs => .ok { vehicles := vs,
                          first_seen := if st.first_seen > t then t else st.first_seen,
                          last_seen := if st.last_seen < t then t else st.last_seen }) := by
  rw [selectStep, hb]
  dsimp only
  rw [hg]
  rfl

theorem selectStep_eq_notime {bbox : BoundingBox} {after before : Timestamp}
    {st : SelectState} {p : PosRecord}
    (hb : bbox.habhub_pos_in_bbox p = .ok true)
    (hg : p.gps_time = none) :
    selectStep bbox after before st p =
      match appendVehicle st.vehicles p.vehicle p with
      | .error e => .error e
      | .ok vs => .ok { st with vehicles := vs } := by
  rw [selectStep, hb]
  dsimp only
  rw [hg]
  rfl

theorem selectStep_eq_out {bbox : BoundingBox} {after before : Timestamp}
    {st : SelectState} {p : PosRecord}
    (hb : bbox.habhub_pos_in_bbox p = .ok false) :
    selectStep bbox after before st p = .ok st := by
  rw [selectStep, hb]
  rfl

theorem selectStep_eq_badtime {bbox : BoundingBox} {after before : Timestamp}
    {st : SelectState} {p : PosRecord}
    (hb : bbox.habhub_pos_in_bbox p = .ok true)
    (hg : p.gps_time = some none) :
    selectStep bbox after before st p = .error .badTimestamp := by
  rw [selectStep, hb]
  dsimp only
  rw [hg]
  rfl

theorem selectStep_eq_badcoord {bbox : BoundingBox} {after before : Timestamp}
    {st : SelectState} {p : PosRecord} {e : RSError}
    (hb : bbox.habhub_pos_in_bbox p = .error e) :
    selectStep bbox after before st p = .error e := by
  rw [selectStep, hb]

theorem foldl_min_le_init (l : List ℤ) (a : ℤ) : l.foldl min a ≤ a := by
  induction l generalizing a with
  | nil => simp
  | cons x l ih => exact le_trans (ih (min a x)) (min_le_left a x)

theorem foldl_min_le_mem (l : List ℤ) : ∀ (a t : ℤ), t ∈ l → l.foldl min a ≤ t := by
  induction l with
  | nil => intro a t ht; cases ht
  | cons x l ih =>
    intro a t ht
    rcases List.mem_cons.mp ht with h | h
    · subst h
      exact le_trans (foldl_min_le_init l (min a t)) (min_le_right a t)
    · exact ih (min a x) t h

theorem foldl_min_mem_cons (l : List ℤ) : ∀ a : ℤ, l.foldl min a ∈ a :: l := by
  induction l with
  | nil => intro a; simp
  | cons x l ih =>
    intro a
    rcases List.mem_cons.mp (ih (min a x)) with h | h
    · rcases min_choice a x with hc | hc
      · exact List.mem_cons.mpr (Or.inl (by rw [List.foldl_cons, h, hc]))
      · refine List.mem_cons_of_mem _ (List.mem_cons.mpr (Or.inl ?_))
        rw [List.foldl_cons, h, hc]
    · exact List.mem_cons_of_mem _ (List.mem_cons_of_mem _ h)

theorem foldl_max_init_le (l : List ℤ) (a : ℤ) : a ≤ l.foldl max a := by
  induction l generalizing a with
  | nil => simp
  | cons x l ih => exact le_trans (le_max_left a x) (ih (max a x))

theorem foldl_max_mem_le (l : List ℤ) : ∀ (a t : ℤ), t ∈ l → t ≤ l.foldl max a := by
  induction l with
  | nil => intro a t ht; cases ht
  | cons x l ih =>
    intro a t ht
    rcases List.mem_cons.mp ht with h | h
    · subst h
      exact le_trans (le_max_right a t) (foldl_max_init_le l (max a t))
    · exact ih (max a x) t h

theorem foldl_max_mem_cons (l : List ℤ) : ∀ a : ℤ, l.foldl max a ∈ a :: l := by
  induction l with
  | nil => intro a; simp
  | cons x l ih =>
    intro a
    rcases List.mem_cons.mp (ih (max a x)) with h | h
    · rcases max_choice a x with hc | hc
      · exact List.mem_cons.mpr (Or.inl (by rw [List.foldl_cons, h, hc]))
      · refine List.mem_cons_of_mem _ (List.mem_cons.mpr (Or.inl ?_))
        rw [List.foldl_cons, h, hc]
    · exact List.mem_cons_of_mem _ (List.mem_cons_of_mem _ h)

theorem selectLoop_cons (bbox : BoundingBox) (after before : Timestamp)
    (st st1 : SelectState) (p : PosRecord) (ps : List PosRecord)
    (hs : selectStep bbox after before st p = .ok st1) :
    selectLoop bbox after before st (p :: ps) = selectLoop bbox after before st1 ps := by
  rw [selectLoop, hs]

theorem selectLoop_cons_err (bbox : BoundingBox) (after before : Timestamp)
    (st : SelectState) (p : PosRecord) (ps : List PosRecord) (e : RSError)
    (hs : selectStep bbox after before st p = .error e) :
    selectLoop bbox after before st (p :: ps) = .error e := by
  rw [selectLoop, hs]

theorem acceptedTimes_nil (bbox : BoundingBox) : acceptedTimes bbox [] = [] := rfl

theorem acceptedTimes_cons_err {bbox : BoundingBox} {p : PosRecord} {e : RSError}
    (ps : List PosRecord) (hb : bbox.habhub_pos_in_bbox p = .error e) :
    acceptedTimes bbox (p :: ps) = acceptedTimes bbox ps := by
  rw [acceptedTimes, List.filterMap_cons]
  rw [hb]
  rfl

theorem acceptedTimes_cons_out {bbox : BoundingBox} {p : PosRecord}
    (ps : List PosRecord) (hb : bbox.habhub_pos_in_bbox p = .ok false) :
    acceptedTimes bbox (p :: ps) = acceptedTimes bbox ps := by
  rw [acceptedTimes, List.filterMap_cons]
  rw [hb]
  rfl

theorem acceptedTimes_cons_notime {bbox : BoundingBox} {p : PosRecord}
    (ps : List PosRecord) (hb : bbox.habhub_pos_in_bbox p = .ok true)
    (hg : p.gps_time = none) :
    acceptedTimes bbox (p :: ps) = acceptedTimes bbox ps := by
  rw [acceptedTimes, List.filterMap_cons]
  rw [hb, hg]
  rfl

theorem acceptedTimes_cons_badtime {bbox : BoundingBox} {p : PosRecord}
    (ps : List PosRecord) (hb : bbox.habhub_pos_in_bbox p = .ok true)
    (hg : p.gps_time = some none) :
    acceptedTimes bbox (p :: ps) = acceptedTimes bbox ps := by
  rw [acceptedTimes, List.filterMap_cons]
  rw [hb, hg]
  rfl

theorem acceptedTimes_cons_time {bbox : BoundingBox} {p : PosRecord} {t : Timestamp}
    (ps : List PosRecord) (hb : bbox.habhub_pos_in_bbox p = .ok true)
    (hg : p.gps_time = some (some t)) :
    acceptedTimes bbox (p :: ps) = t :: acceptedTimes bbox ps := by
  rw [acceptedTimes, List.filterMap_cons]
  rw [hb, hg]
  rfl

theorem selectLoop_ok_span (bbox : BoundingBox) (after before : Timestamp) :
    ∀ (ps : List PosRecord) (st st2 : SelectState),
      selectLoop bbox after before st ps = .ok st2 →
      st2.first_seen = (acceptedTimes bbox ps).foldl min st.first_seen ∧
      st2.last_seen = (acceptedTimes bbox ps).foldl max st.last_seen := by
  intro ps
  induction ps with
  | nil =>
    intro st st2 h
    rw [selectLoop] at h
    cases h
    exact ⟨rfl, rfl⟩
  | cons p ps ih =>
    intro st st2 h
    cases hb : bbox.habhub_pos_in_bbox p with
    | error e =>
      rw [selectLoop_cons_err bbox after before st p ps e (selectStep_eq_badcoord hb)] at h
      cases h
    | ok inBox =>
      cases inBox with
      | false =>
        rw [selectLoop_cons bbox after before st st p ps (selectStep_eq_out hb)] at h
        rw [acceptedTimes_cons_out ps hb]
        exact ih st st2 h
      | true =>
        rcases hg : p.gps_time with _ | pr
        · cases ha : appendVehicle st.vehicles p.vehicle p with
          | error e =>
            have hs : selectStep bbox after before st p = .error e := by
              rw [selectStep_eq_notime hb hg, ha]
            rw [selectLoop_cons_err bbox after before st p ps e hs] at h
            cases h
          | ok vs =>
            have hs : selectStep bbox after before st p = .ok { st with vehicles := vs } := by
              rw [selectStep_eq_notime hb hg, ha]
            rw [selectLoop_cons bbox after before st _ p ps hs] at h
            rw [acceptedTimes_cons_notime ps hb hg]
            exact ih { st with vehicles := vs } st2 h
        · rcases pr with _ | t
          · have hs : selectStep bbox after before st p = .error .badTimestamp :=
              selectStep_eq_badtime hb hg
            rw [selectLoop_cons_err bbox after before st p ps _ hs] at h
            cases h
          · rw [acceptedTimes_cons_time ps hb hg, List.foldl_cons, List.foldl_cons]
            cases hw : (decide (t < after) || decide (t > before)) with
            | false =>
              cases ha : appendVehicle st.vehicles p.vehicle { p with parsed_time := some t } with
              | error e =>
                have hs : selectStep bbox after before st p = .error e := by
                  rw [selectStep_eq_time hb hg, hw, ha]
                  rfl
                rw [selectLoop_cons_err bbox after before st p ps e hs] at h
                cases h
              | ok vs =>
                have hs : selectStep bbox after before st p =
                    .ok { vehicles := vs,
                          first_seen := if st.first_seen > t then t else st.first_seen,
                          last_seen := if st.last_seen < t then t else st.last_seen } := by
                  rw [selectStep_eq_time hb hg, hw, ha]
                  rfl
                rw [selectLoop_cons bbox after before st _ p ps hs] at h
                have hres := ih _ st2 h
                dsimp only at hres
                rw [hres.1, hres.2, if_gt_eq_min, if_lt_eq_max]
                exact ⟨rfl, rfl⟩
            | true =>
              have hs : selectStep bbox after before st p =
                  .ok { st with
                        first_seen := if st.first_seen > t then t else st.first_seen,
                        last_seen := if st.last_seen < t then t else st.last_seen } := by
                rw [selectStep_eq_time hb hg, hw]
                rfl
              rw [selectLoop_cons bbox after before st _ p ps hs] at h
              have hres := ih _ st2 h
              dsimp only at hres
              rw [hres.1, hres.2, if_gt_eq_min, if_lt_eq_max]
              exact ⟨rfl, rfl⟩

/-- C3: for every record that passes the spatial test and carries a
parseable `gps_time`, the session span is updated before the temporal
window is applied; after a successful run, `first_seen` is the minimum
and `last_seen` the maximum over exactly those timestamps
(`acceptedTimes` mentions the bounding box but not `after`/`before`, so
the bounds are independent of the configured window and can lie outside
it). -/
theorem c3_session_span_min_max_spatial (bbox : BoundingBox)
    (after before : Timestamp) (poslist : List PosRecord) (st : SelectState)
    (h : select_vehicles bbox after before poslist = .ok st)
    (hrange : ∀ t ∈ acceptedTimes bbox poslist, dtMin ≤ t ∧ t ≤ dtMax)
    (hne : acceptedTimes bbox poslist ≠ []) :
    st.first_seen ∈ acceptedTimes bbox poslist ∧
    st.last_seen ∈ acceptedTimes bbox poslist ∧
    ∀ t ∈ acceptedTimes bbox poslist, st.first_seen ≤ t ∧ t ≤ st.last_seen := by
  rw [select_vehicles] at h
  obtain ⟨h1, h2⟩ := selectLoop_ok_span bbox after before poslist _ st h
  dsimp only at h1 h2
  obtain ⟨t0, ht0⟩ := List.exists_mem_of_ne_nil _ hne
  constructor
  · rcases List.mem_cons.mp (foldl_min_mem_cons (acceptedTimes bbox poslist) dtMax) with hc | hc
    · have hle : st.first_seen ≤ t0 := by
        rw [h1]; exact foldl_min_le_mem _ dtMax t0 ht0
      have : st.first_seen = t0 := le_antisymm hle (by
        rw [h1, hc]
        exact (hrange t0 ht0).2)
      rw [this]; exact ht0
    · rw [h1]; exact hc
  constructor
  · rcases List.mem_cons.mp (foldl_max_mem_cons (acceptedTimes bbox poslist) dtMin) with hc | hc
    · have hle : t0 ≤ st.last_seen := by
        rw [h2]; exact foldl_max_mem_le _ dtMin t0 ht0
      have : st.last_seen = t0 := le_antisymm (by
        rw [h2, hc]
        exact (hrange t0 ht0).1) hle
      rw [this]; exact ht0
    · rw [h2]; exact hc
  · intro t ht
    exact ⟨by rw [h1]; exact foldl_min_le_mem _ dtMax t ht,
           by rw [h2]; exact foldl_max_mem_le _ dtMin t ht⟩

theorem lookupVal_appendUpdate (m : VehicleMap) (v : String) (x : PosRecord) :
    lookupVal (m.map fun kv => if kv.1 == v then (kv.1, kv.2 ++ [x]) else kv) v =
      (lookupVal m v).map (fun l => l ++ [x]) := by
  induction m with
  | nil => rfl
  | cons kv m ih =>
    rw [List.map_cons, lookupVal_cons, lookupVal_cons]
    have hfst : (if kv.1 == v then (kv.1, kv.2 ++ [x]) else kv).1 = kv.1 := by
      cases kv.1 == v <;> rfl
    rw [hfst]
    cases hk : kv.1 == v
    · simp only [Bool.false_eq_true, if_false, ih]
    · simp only [if_true]
      rfl

theorem appendVehicle_ok (m : VehicleMap) (v : String) (x : PosRecord)
    (hkey : (m.any fun kv => kv.1 == v) = true) :
    appendVehicle m v x =
      .ok (m.map fun kv => if kv.1 == v then (kv.1, kv.2 ++ [x]) else kv) := by
  rw [appendVehicle, if_pos hkey]

theorem lookupVal_isSome_of_any {α : Type} (m : List (String × α)) (v : String)
    (hkey : (m.any fun kv => kv.1 == v) = true) :
    ∃ l, lookupVal m v = some l := by
  cases hl : lookupVal m v with
  | none =>
    rw [(lookupVal_eq_none_iff m v).mp hl] at hkey
    cases hkey
  | some l => exact ⟨l, rfl⟩

theorem acceptsRecord_eq_err {bbox : BoundingBox} {after before : Timestamp}
    {p : PosRecord} {e : RSError} (hb : bbox.habhub_pos_in_bbox p = .error e) :
    acceptsRecord bbox after before p = false := by
  rw [acceptsRecord, hb]

theorem acceptsRecord_eq_out {bbox : BoundingBox} {after before : Timestamp}
    {p : PosRecord} (hb : bbox.habhub_pos_in_bbox p = .ok false) :
    acceptsRecord bbox after before p = false := by
  rw [acceptsRecord, hb]

theorem acceptsRecord_eq_notime {bbox : BoundingBox} {after before : Timestamp}
    {p : PosRecord} (hb : bbox.habhub_pos_in_bbox p = .ok true)
    (hg : p.gps_time = none) :
    acceptsRecord bbox after before p = true := by
  rw [acceptsRecord, hb]
  dsimp only
  rw [hg]

theorem acceptsRecord_eq_badtime {bbox : BoundingBox} {after before : Timestamp}
    {p : PosRecord} (hb : bbox.habhub_pos_in_bbox p = .ok true)
    (hg : p.gps_time = some none) :
    acceptsRecord bbox after before p = false := by
  rw [acceptsRecord, hb]
  dsimp only
  rw [hg]

theorem acceptsRecord_eq_time {bbox : BoundingBox} {after before : Timestamp}
    {p : PosRecord} {t : Timestamp} (hb : bbox.habhub_pos_in_bbox p = .ok true)
    (hg : p.gps_time = some (some t)) :
    acceptsRecord bbox after before p =
      !(decide (t < after) || decide (t > before)) := by
  rw [acceptsRecord, hb]
  dsimp only
  rw [hg]

theorem attachTime_eq_time {p : PosRecord} {t : Timestamp}
    (hg : p.gps_time = some (some t)) :
    attachTime p = { p with parsed_time := some t } := by
  rw [attachTime, hg]

theorem attachTime_eq_notime {p : PosRecord} (hg : p.gps_time = none) :
    attachTime p = p := by
  rw [attachTime, hg]

/-- C4: for a spatially accepted record carrying a parseable timestamp
`t`, the temporal test accepts it iff `after ≤ t ≤ before` (the record
is appended to its vehicle's list exactly when `t` is inside the closed
window, so boundary values are included and only strictly-outside values
are rejected); and a spatially accepted record lacking a `gps_time`
field is appended unconditionally, with no temporal filtering. -/
theorem c4_temporal_window_inclusive (bbox : BoundingBox) (after before : Timestamp)
    (st : SelectState) (p : PosRecord)
    (hb : bbox.habhub_pos_in_bbox p = .ok true)
    (hkey : (st.vehicles.any fun kv => kv.1 == p.vehicle) = true) :
    (∀ t, p.gps_time = some (some t) →
      ∃ st2, selectStep bbox after before st p = .ok st2 ∧
        (lookupVal st2.vehicles p.vehicle =
            (lookupVal st.vehicles p.vehicle).map
              (fun l => l ++ [{ p with parsed_time := some t }]) ↔
          (after ≤ t ∧ t ≤ before))) ∧
    (p.gps_time = none →
      ∃ st2, selectStep bbox after before st p = .ok st2 ∧
        lookupVal st2.vehicles p.vehicle =
          (lookupVal st.vehicles p.vehicle).map (fun l => l ++ [p])) := by
  constructor
  · intro t hg
    cases hw : (decide (t < after) || decide (t > before))
    · have hwin : after ≤ t ∧ t ≤ before := by
        simp only [Bool.or_eq_false_iff, decide_eq_false_iff_not, not_lt] at hw
        exact ⟨hw.1, hw.2⟩
      have happ := appendVehicle_ok st.vehicles p.vehicle { p with parsed_time := some t } hkey
      have hs : selectStep bbox after before st p =
          .ok { vehicles := st.vehicles.map fun kv =>
                  if kv.1 == p.vehicle then (kv.1, kv.2 ++ [{ p with parsed_time := some t }]) else kv,
                first_seen := if st.first_seen > t then t else st.first_seen,
                last_seen := if st.last_seen < t then t else st.last_seen } := by
        rw [selectStep_eq_time hb hg, hw, happ]
        rfl
      refine ⟨_, hs, ?_⟩
      exact iff_of_true (lookupVal_appendUpdate st.vehicles p.vehicle _) hwin
    · have hnwin : ¬(after ≤ t ∧ t ≤ before) := by
        simp only [Bool.or_eq_true_iff, decide_eq_true_eq] at hw
        rcases hw with h | h
        · intro hc; exact absurd hc.1 (not_le.mpr h)
        · intro hc; exact absurd hc.2 (not_le.mpr h)
      have hs : selectStep bbox after before st p =
          .ok { st with first_seen := if st.first_seen > t then t else st.first_seen,
                        last_seen := if st.last_seen < t then t else st.last_seen } := by
        rw [selectStep_eq_time hb hg, hw]
        rfl
      refine ⟨_, hs, iff_of_false ?_ hnwin⟩
      obtain ⟨l, hl⟩ := lookupVal_isSome_of_any st.vehicles p.vehicle hkey
      intro hc
      rw [show ({ st with first_seen := if st.first_seen > t then t else st.first_seen,
                          last_seen := if st.last_seen < t then t else st.last_seen } :
            SelectState).vehicles = st.vehicles from rfl, hl] at hc
      simp at hc
  · intro hg
    have happ := appendVehicle_ok st.vehicles p.vehicle p hkey
    have hs : selectStep bbox after before st p =
        .ok { st with vehicles := st.vehicles.map fun kv =>
                if kv.1 == p.vehicle then (kv.1, kv.2 ++ [p]) else kv } := by
      rw [selectStep_eq_notime hb hg, happ]
    exact ⟨_, hs, lookupVal_appendUpdate st.vehicles p.vehicle p⟩

/-- Witness for C4 at a concrete state and record. -/
theorem c4_witness :
    (∀ t, sampleInBox.gps_time = some (some t) →
      ∃ st2, selectStep defaultBBox 0 200
          { vehicles := [("A", [])], first_seen := dtMax, last_seen := dtMin }
          sampleInBox = .ok st2 ∧
        (lookupVal st2.vehicles sampleInBox.vehicle =
            (lookupVal ([("A", [])] : VehicleMap) sampleInBox.vehicle).map
              (fun l => l ++ [{ sampleInBox with parsed_time := some t }]) ↔
          (0 ≤ t ∧ t ≤ 200))) ∧
    (sampleInBox.gps_time = none →
      ∃ st2, selectStep defaultBBox 0 200
          { vehicles := [("A", [])], first_seen := dtMax, last_seen := dtMin }
          sampleInBox = .ok st2 ∧
        lookupVal st2.vehicles sampleInBox.vehicle =
          (lookupVal ([("A", [])] : VehicleMap) sampleInBox.vehicle).map
            (fun l => l ++ [sampleInBox])) :=
  c4_temporal_window_inclusive defaultBBox 0 200
    { vehicles := [("A", [])], first_seen := dtMax, last_seen := dtMin }
    sampleInBox (by rfl) (by rfl)

/-- Witness for C3: a concrete run with window `[200, 300]`; both sample
timestamps (100 and 400) fall outside the window yet determine the
session span. -/
theorem c3_witness :
    (100 : Timestamp) ∈ acceptedTimes defaultBBox [sampleInBox, sampleInBox2] ∧
    (400 : Timestamp) ∈ acceptedTimes defaultBBox [sampleInBox, sampleInBox2] ∧
    ∀ t ∈ acceptedTimes defaultBBox [sampleInBox, sampleInBox2],
      (100 : Timestamp) ≤ t ∧ t ≤ 400 :=
  c3_session_span_min_max_spatial defaultBBox 200 300 [sampleInBox, sampleInBox2]
    { vehicles := [("A", [])], first_seen := 100, last_seen := 400 }
    (by rfl) (by decide) (by decide)

theorem beq_symm_false {a b : String} (h : (a == b) = false) : (b == a) = false := by
  cases hba : b == a
  · rfl
  · rw [eq_of_beq hba] at h
    rw [beq_self_eq_true] at h
    cases h

theorem appendVehicle_err (m : VehicleMap) (v : String) (x : PosRecord)
    (hkey : (m.any fun kv => kv.1 == v) = false) :
    appendVehicle m v x = .error .missingKey := by
  rw [appendVehicle, if_neg (by simp [hkey])]

theorem appendVehicle_ok_any {m : VehicleMap} {v : String} {x : PosRecord}
    {vs : VehicleMap} (ha : appendVehicle m v x = .ok vs) :
    (m.any fun kv => kv.1 == v) = true := by
  cases hany : (m.any fun kv => kv.1 == v)
  · rw [appendVehicle_err m v x hany] at ha
    cases ha
  · rfl

theorem appendVehicle_ok_eq {m : VehicleMap} {v : String} {x : PosRecord}
    {vs : VehicleMap} (ha : appendVehicle m v x = .ok vs) :
    vs = m.map fun kv => if kv.1 == v then (kv.1, kv.2 ++ [x]) else kv := by
  rw [appendVehicle_ok m v x (appendVehicle_ok_any ha)] at ha
  injection ha with h
  exact h.symm

theorem selectLoop_ok_vehicles (bbox : BoundingBox) (after before : Timestamp) :
    ∀ (ps : List PosRecord) (st st2 : SelectState),
      selectLoop bbox after before st ps = .ok st2 →
      st2.vehicles = st.vehicles.map fun kv =>
        (kv.1, kv.2 ++
          ((ps.filter fun p =>
            acceptsRecord bbox after before p && (p.vehicle == kv.1)).map attachTime)) := by
  intro ps
  induction ps with
  | nil =>
    intro st st2 h
    rw [selectLoop] at h
    cases h
    simp
  | cons p ps ih =>
    intro st st2 h
    cases hb : bbox.habhub_pos_in_bbox p with
    | error e =>
      rw [selectLoop_cons_err bbox after before st p ps e (selectStep_eq_badcoord hb)] at h
      cases h
    | ok inBox =>
      cases inBox with
      | false =>
        rw [selectLoop_cons bbox after before st st p ps (selectStep_eq_out hb)] at h
        rw [ih st st2 h]
        apply List.map_congr_left
        intro kv _
        rw [List.filter_cons, acceptsRecord_eq_out hb]
        simp
      | true =>
        rcases hg : p.gps_time with _ | pr
        · cases ha : appendVehicle st.vehicles p.vehicle p with
          | error e =>
            have hs : selectStep bbox after before st p = .error e := by
              rw [selectStep_eq_notime hb hg, ha]
            rw [selectLoop_cons_err bbox after before st p ps e hs] at h
            cases h
          | ok vs =>
            have hs : selectStep bbox after before st p = .ok { st with vehicles := vs } := by
              rw [selectStep_eq_notime hb hg, ha]
            rw [selectLoop_cons bbox after before st _ p ps hs] at h
            have hres := ih _ st2 h
            dsimp only at hres
            rw [hres, appendVehicle_ok_eq ha, List.map_map]
            apply List.map_congr_left
            intro kv _
            simp only [Function.comp]
            cases hk : kv.1 == p.vehicle
            · rw [if_neg (by simp [hk]), List.filter_cons]
              rw [acceptsRecord_eq_notime hb hg, beq_symm_false hk]
              simp
            · rw [if_pos (by simp [hk]), List.filter_cons]
              rw [acceptsRecord_eq_notime hb hg, eq_of_beq hk, beq_self_eq_true]
              simp [attachTime_eq_notime hg]
        · rcases pr with _ | t
          · have hs : selectStep bbox after before st p = .error .badTimestamp :=
              selectStep_eq_badtime hb hg
            rw [selectLoop_cons_err bbox after before st p ps _ hs] at h
            cases h
          · cases hw : (decide (t < after) || decide (t > before)) with
            | false =>
              cases ha : appendVehicle st.vehicles p.vehicle { p with parsed_time := some t } with
              | error e =>
                have hs : selectStep bbox after before st p = .error e := by
                  rw [selectStep_eq_time hb hg, hw, ha]
                  rfl
                rw [selectLoop_cons_err bbox after before st p ps e hs] at h
                cases h
              | ok vs =>
                have hs : selectStep bbox after before st p =
                    .ok { vehicles := vs,
                          first_seen := if st.first_seen > t then t else st.first_seen,
                          last_seen := if st.last_seen < t then t else st.last_seen } := by
                  rw [selectStep_eq_time hb hg, hw, ha]
                  rfl
                rw [selectLoop_cons bbox after before st _ p ps hs] at h
                have hres := ih _ st2 h
                dsimp only at hres
                rw [hres, appendVehicle_ok_eq ha, List.map_map]
                apply List.map_congr_left
                intro kv _
                simp only [Function.comp]
                cases hk : kv.1 == p.vehicle
                · rw [if_neg (by simp [hk]), List.filter_cons]
                  rw [acceptsRecord_eq_time hb hg, hw, beq_symm_false hk]
                  simp
                · rw [if_pos (by simp [hk]), List.filter_cons]
                  rw [acceptsRecord_eq_time hb hg, hw, eq_of_beq hk, beq_self_eq_true]
                  simp [attachTime_eq_time hg]
            | true =>
              have hs : selectStep bbox after before st p =
                  .ok { st with
                        first_seen := if st.first_seen > t then t else st.first_seen,
                        last_seen := if st.last_seen < t then t else st.last_seen } := by
                rw [selectStep_eq_time hb hg, hw]
                rfl
              rw [selectLoop_cons bbox after before st _ p ps hs] at h
              have hres := ih _ st2 h
              dsimp only at hres
              rw [hres]
              apply List.map_congr_left
              intro kv _
              rw [List.filter_cons, acceptsRecord_eq_time hb hg, hw]
              simp

theorem seedVehicle_mem (m : VehicleMap) (w v : String) :
    (∃ kv ∈ seedVehicle m w, kv.1 = v) ↔ (∃ kv ∈ m, kv.1 = v) ∨ v = w := by
  rw [seedVehicle]
  cases hany : (m.any fun kv => kv.1 == w)
  · rw [if_neg (by simp [hany])]
    constructor
    · rintro ⟨kv, hkv, hkv1⟩
      rcases List.mem_append.mp hkv with hm | hw
      · exact Or.inl ⟨kv, hm, hkv1⟩
      · rcases List.mem_singleton.mp hw with rfl
        exact Or.inr hkv1.symm
    · rintro (⟨kv, hm, hkv1⟩ | rfl)
      · exact ⟨kv, List.mem_append_left _ hm, hkv1⟩
      · exact ⟨(v, []), List.mem_append_right _ (List.mem_singleton.mpr rfl), rfl⟩
  · rw [if_pos rfl]
    constructor
    · rintro ⟨kv, hkv, hkv1⟩
      rcases List.mem_map.mp hkv with ⟨kv0, hkv0, hkv0eq⟩
      refine Or.inl ⟨kv0, hkv0, ?_⟩
      rw [← hkv1, ← hkv0eq]
      cases hk : kv0.1 == w <;> simp
    · rintro (⟨kv, hm, hkv1⟩ | rfl)
      · refine ⟨if kv.1 == w then (kv.1, []) else kv, List.mem_map.mpr ⟨kv, hm, rfl⟩, ?_⟩
        cases hk : kv.1 == w <;> simp [hkv1]
      · obtain ⟨kv, hm, hkvw⟩ := List.any_eq_true.mp hany
        have hkv1 : kv.1 = v := eq_of_beq hkvw
        refine ⟨(kv.1, []), List.mem_map.mpr ⟨kv, hm, ?_⟩, hkv1⟩
        rw [if_pos hkvw]

theorem seedVehicles_go_mem (ps : List PosRecord) :
    ∀ (m : VehicleMap) (v : String),
      (∃ kv ∈ ps.foldl (fun m p => seedVehicle m p.vehicle) m, kv.1 = v) ↔
      (∃ kv ∈ m, kv.1 = v) ∨ v ∈ ps.map PosRecord.vehicle := by
  induction ps with
  | nil => intro m v; simp
  | cons p ps ih =>
    intro m v
    rw [List.foldl_cons, ih (seedVehicle m p.vehicle) v, seedVehicle_mem,
      List.map_cons]
    rw [List.mem_cons, or_assoc]

theorem seedVehicles_mem (ps : List PosRecord) (v : String) :
    (∃ kv ∈ seedVehicles ps, kv.1 = v) ↔ v ∈ ps.map PosRecord.vehicle := by
  rw [seedVehicles, seedVehicles_go_mem]
  simp

theorem seedVehicle_values (m : VehicleMap) (w : String)
    (hm : ∀ kv ∈ m, kv.2 = ([] : List PosRecord)) :
    ∀ kv ∈ seedVehicle m w, kv.2 = ([] : List PosRecord) := by
  intro kv hkv
  rw [seedVehicle] at hkv
  by_cases hany : (m.any fun kv => kv.1 == w) = true
  · rw [if_pos hany] at hkv
    obtain ⟨kv0, hkv0, heq⟩ := List.mem_map.mp hkv
    rw [← heq]
    cases hk : kv0.1 == w <;> simp [hm kv0 hkv0]
  · rw [if_neg hany] at hkv
    rcases List.mem_append.mp hkv with hm2 | hw
    · exact hm kv hm2
    · rcases List.mem_singleton.mp hw with rfl
      rfl

theorem seedVehicles_go_values (ps : List PosRecord) :
    ∀ (m : VehicleMap), (∀ kv ∈ m, kv.2 = ([] : List PosRecord)) →
      ∀ kv ∈ ps.foldl (fun m p => seedVehicle m p.vehicle) m, kv.2 = ([] : List PosRecord) := by
  induction ps with
  | nil => intro m hm; exact hm
  | cons p ps ih =>
    intro m hm
    rw [List.foldl_cons]
    exact ih (seedVehicle m p.vehicle) (seedVehicle_values m p.vehicle hm)

theorem seedVehicles_values (ps : List PosRecord) :
    ∀ kv ∈ seedVehicles ps, kv.2 = ([] : List PosRecord) :=
  seedVehicles_go_values ps [] (by simp)

theorem gen_habhub_vehicle_track_id {v : String} {poslist : List PosRecord}
    {pk : Packet} (h : gen_habhub_vehicle_track v poslist = .ok pk) :
    pk.id = v := by
  rw [gen_habhub_vehicle_track] at h
  cases h1 : trackLoop { start := dtMax, stop := dtMin, results := [] } poslist with
  | error e => rw [h1] at h; cases h
  | ok acc =>
    rw [h1] at h
    cases h2 : gen_position_list poslist with
    | error e => rw [h2] at h; cases h
    | ok pl =>
      rw [h2] at h
      cases h
      rfl

theorem czmlLoop_ids : ∀ (kvs : VehicleMap) (packets out : List Packet),
    czmlLoop packets kvs = .ok out →
    out.map Packet.id =
      packets.map Packet.id ++
      ((kvs.filter fun kv => kv.2.length > 0).map Prod.fst) := by
  intro kvs
  induction kvs with
  | nil =>
    intro packets out h
    rw [czmlLoop] at h
    cases h
    simp
  | cons kv kvs ih =>
    obtain ⟨v, pl⟩ := kv
    intro packets out h
    rw [czmlLoop] at h
    by_cases hc : pl.length > 0
    · rw [if_pos hc] at h
      cases hpk : gen_habhub_vehicle_track v pl with
      | error e => rw [hpk] at h; cases h
      | ok pk =>
        rw [hpk] at h
        have hout := ih (packets ++ [pk]) out h
        rw [hout, List.filter_cons, if_pos (by simpa using hc)]
        simp [gen_habhub_vehicle_track_id hpk]
    · rw [if_neg hc] at h
      have hout := ih packets out h
      rw [hout, List.filter_cons, if_neg (by simpa using hc)]

/-- C8: assembly seeds an entry for every distinct vehicle_id appearing
anywhere in the input position list (a vehicle name has an entry in the
seeded dict iff it occurs in the input), and every vehicle with zero
accepted samples is dropped before export: the exported packet set
contains exactly the vehicles with at least one accepted sample. -/
theorem c8_exported_vehicles_nonempty (bbox : BoundingBox) (after before : Timestamp)
    (poslist : List PosRecord) (packets : List Packet)
    (h : gen_czml bbox after before poslist = .ok packets) :
    (∀ v, (∃ kv ∈ seedVehicles poslist, kv.1 = v) ↔ v ∈ poslist.map PosRecord.vehicle) ∧
    (∀ v, (∃ pk ∈ packets, pk.id = v) ↔
      ∃ p ∈ poslist, acceptsRecord bbox after before p = true ∧ p.vehicle = v) := by
  constructor
  · intro v
    exact seedVehicles_mem poslist v
  · intro v
    rw [gen_czml] at h
    cases hsel : select_vehicles bbox after before poslist with
    | error e => rw [hsel] at h; cases h
    | ok st =>
      rw [hsel] at h
      rw [select_vehicles] at hsel
      have hveh := selectLoop_ok_vehicles bbox after before poslist _ st hsel
      dsimp only at hveh
      have hids := czmlLoop_ids st.vehicles [] packets h
      rw [List.map_nil, List.nil_append] at hids
      constructor
      · rintro ⟨pk, hpk, hpkid⟩
        have hv : v ∈ packets.map Packet.id := List.mem_map.mpr ⟨pk, hpk, hpkid⟩
        rw [hids] at hv
        obtain ⟨kv, hkvmem, hkv1⟩ := List.mem_map.mp hv
        obtain ⟨hkvin, hkvlen⟩ := List.mem_filter.mp hkvmem
        rw [hveh] at hkvin
        obtain ⟨kv0, hkv0, hkv0eq⟩ := List.mem_map.mp hkvin
        have hval : kv0.2 = [] := seedVehicles_values poslist kv0 hkv0
        rw [← hkv0eq] at hkvlen hkv1
        dsimp only at hkvlen hkv1
        rw [hval] at hkvlen
        simp only [List.nil_append, List.length_map, decide_eq_true_eq] at hkvlen
        have hne : (poslist.filter fun q =>
            acceptsRecord bbox after before q && (q.vehicle == kv0.1)) ≠ [] := by
          intro hnil
          rw [hnil] at hkvlen
          simp at hkvlen
        obtain ⟨p, hpfil⟩ := List.exists_mem_of_ne_nil _ hne
        obtain ⟨hpin, hppred⟩ := List.mem_filter.mp hpfil
        simp only [Bool.and_eq_true, beq_iff_eq] at hppred
        exact ⟨p, hpin, hppred.1, by rw [hppred.2, hkv1]⟩
      · rintro ⟨p, hpin, hpacc, hpveh⟩
        have hvmem : v ∈ poslist.map PosRecord.vehicle :=
          List.mem_map.mpr ⟨p, hpin, hpveh⟩
        obtain ⟨kv0, hkv0, hkv01⟩ := (seedVehicles_mem poslist v).mpr hvmem
        have hval : kv0.2 = [] := seedVehicles_values poslist kv0 hkv0
        have hpfil : p ∈ poslist.filter fun q =>
            acceptsRecord bbox after before q && (q.vehicle == kv0.1) := by
          refine List.mem_filter.mpr ⟨hpin, ?_⟩
          rw [hpacc, Bool.true_and]
          rw [hpveh, hkv01]
          exact beq_self_eq_true v
        have hvv : v ∈ (st.vehicles.filter fun kv => kv.2.length > 0).map Prod.fst := by
          refine List.mem_map.mpr
            ⟨(kv0.1, kv0.2 ++ (poslist.filter fun q =>
                acceptsRecord bbox after before q && (q.vehicle == kv0.1)).map attachTime),
              ?_, hkv01⟩
          refine List.mem_filter.mpr ⟨?_, ?_⟩
          · rw [hveh]
            exact List.mem_map.mpr ⟨kv0, hkv0, rfl⟩
          · rw [hval]
            simp only [List.nil_append, List.length_map]
            exact decide_eq_true (List.length_pos.mpr (List.ne_nil_of_mem hpfil))
        rw [← hids] at hvv
        obtain ⟨pk, hpk, hpkid⟩ := List.mem_map.mp hvv
        exact ⟨pk, hpk, hpkid⟩

/-- Witness for C8: vehicle "A" has an accepted sample and is exported,
vehicle "B" (only sample outside the volume) is seeded but dropped. -/
theorem c8_witness :
    (∀ v, (∃ kv ∈ seedVehicles [sampleInBox, sampleNegLonB], kv.1 = v) ↔
      v ∈ ([sampleInBox, sampleNegLonB].map PosRecord.vehicle)) ∧
    (∀ v, (∃ pk ∈ [packetA], pk.id = v) ↔
      ∃ p ∈ [sampleInBox, sampleNegLonB],
        acceptsRecord defaultBBox 0 dtMax p = true ∧ p.vehicle = v) :=
  c8_exported_vehicles_nonempty defaultBBox 0 dtMax [sampleInBox, sampleNegLonB]
    [packetA] (by rfl)

theorem recordCoords_wf (p : PosRecord) (h : wfSample p = true) :
    recordCoords p = .ok (coordGroup p) := by
  rw [wfSample] at h
  simp only [Bool.and_eq_true, Option.isSome_iff_exists] at h
  obtain ⟨⟨⟨⟨t, ht⟩, ⟨lon, hlon⟩⟩, ⟨lat, hlat⟩⟩, ⟨alt, halt⟩⟩ := h
  rw [recordCoords, ht, hlon, hlat, halt]
  rw [coordGroup, ht, hlon, hlat, halt]
  rfl

theorem gen_position_list_wf : ∀ (plist : List PosRecord),
    (∀ p ∈ plist, wfSample p = true) →
    gen_position_list plist = .ok (plist.flatMap coordGroup) := by
  intro plist
  induction plist with
  | nil => intro _; rfl
  | cons p ps ih =>
    intro h
    rw [gen_position_list, recordCoords_wf p (h p (List.mem_cons_self p ps)),
      ih (fun q hq => h q (List.mem_cons_of_mem p hq))]
    rfl

/-- C6: for a vehicle's accepted samples (well-formed stored records),
the exported coordinate sequence is the concatenation, over the samples
in list order (never reordered by timestamp), of exactly four
consecutive values per sample — timestamp, longitude, latitude,
altitude — one group per accepted input sample, 1:1 (the output length
is four times the sample count). -/
theorem c6_position_list_four_values_per_sample (plist : List PosRecord)
    (h : ∀ p ∈ plist, wfSample p = true) :
    gen_position_list plist = .ok (plist.flatMap coordGroup) ∧
    (plist.flatMap coordGroup).length = 4 * plist.length := by
  refine ⟨gen_position_list_wf plist h, ?_⟩
  induction plist with
  | nil => rfl
  | cons q qs ih =>
    rw [List.flatMap_cons, List.length_append,
      ih (fun r hr => h r (List.mem_cons_of_mem q hr))]
    rw [List.length_cons]
    have hcg : (coordGroup q).length = 4 := rfl
    rw [hcg]
    ring

theorem wfSample_fields {p : PosRecord} (h : wfSample p = true) :
    ∃ t lon lat alt, p.parsed_time = some t ∧ p.gps_lon = some lon ∧
      p.gps_lat = some lat ∧ p.gps_alt = some alt := by
  rw [wfSample] at h
  simp only [Bool.and_eq_true, Option.isSome_iff_exists] at h
  obtain ⟨⟨⟨⟨t, ht⟩, ⟨lon, hlon⟩⟩, ⟨lat, hlat⟩⟩, ⟨alt, halt⟩⟩ := h
  exact ⟨t, lon, lat, alt, ht, hlon, hlat, halt⟩

theorem coordGroup_eq {p : PosRecord} {t : Timestamp} {lon lat alt : ℚ}
    (ht : p.parsed_time = some t) (hlon : p.gps_lon = some lon)
    (hlat : p.gps_lat = some lat) (halt : p.gps_alt = some alt) :
    coordGroup p = [.time t, .num lon, .num lat, .num alt] := by
  rw [coordGroup, ht, hlon, hlat, halt]
  rfl

theorem trackStep_eq (acc : TrackAcc) {p : PosRecord} {t : Timestamp}
    {lon lat alt : ℚ}
    (ht : p.parsed_time = some t) (hlon : p.gps_lon = some lon)
    (hlat : p.gps_lat = some lat) (halt : p.gps_alt = some alt) :
    trackStep acc p = .ok
      { start := min acc.start t, stop := max acc.stop t,
        results := acc.results ++ [.time t, .num lon, .num lat, .num alt] } := by
  rw [trackStep, ht]
  dsimp only
  rw [hlon, hlat, halt, if_gt_eq_min, if_lt_eq_max]

theorem trackLoop_wf : ∀ (ps : List PosRecord) (acc : TrackAcc),
    (∀ p ∈ ps, wfSample p = true) →
    ∃ acc2, trackLoop acc ps = .ok acc2 ∧
      acc2.start = (ps.filterMap PosRecord.parsed_time).foldl min acc.start ∧
      acc2.stop = (ps.filterMap PosRecord.parsed_time).foldl max acc.stop ∧
      acc2.results = acc.results ++ ps.flatMap coordGroup := by
  intro ps
  induction ps with
  | nil =>
    intro acc _
    exact ⟨acc, rfl, rfl, rfl, by simp⟩
  | cons p ps ih =>
    intro acc h
    obtain ⟨t, lon, lat, alt, ht, hlon, hlat, halt⟩ :=
      wfSample_fields (h p (List.mem_cons_self p ps))
    obtain ⟨acc2, hloop, h1, h2, h3⟩ :=
      ih { start := min acc.start t, stop := max acc.stop t,
           results := acc.results ++ [.time t, .num lon, .num lat, .num alt] }
        (fun q hq => h q (List.mem_cons_of_mem p hq))
    refine ⟨acc2, ?_, ?_, ?_, ?_⟩
    · rw [trackLoop, trackStep_eq acc ht hlon hlat halt]
      exact hloop
    · rw [List.filterMap_cons, ht, List.foldl_cons]
      exact h1
    · rw [List.filterMap_cons, ht, List.foldl_cons]
      exact h2
    · rw [h3, List.flatMap_cons, coordGroup_eq ht hlon hlat halt,
        List.append_assoc]

/-- C7: for every exported track with at least one sample, the
availability interval equals the minimum and maximum timestamp over
that track's samples, computed per vehicle (the session span does not
appear); hence start ≤ end always, and start = end for a single-sample
track. -/
theorem c7_availability_interval_min_max (v : String) (poslist : List PosRecord)
    (hwf : ∀ p ∈ poslist, wfSample p = true) (hne : poslist ≠ [])
    (hrange : ∀ t ∈ poslist.filterMap PosRecord.parsed_time, dtMin ≤ t ∧ t ≤ dtMax) :
    ∃ pkt, gen_habhub_vehicle_track v poslist = .ok pkt ∧
      pkt.availStart ∈ poslist.filterMap PosRecord.parsed_time ∧
      pkt.availEnd ∈ poslist.filterMap PosRecord.parsed_time ∧
      (∀ t ∈ poslist.filterMap PosRecord.parsed_time,
        pkt.availStart ≤ t ∧ t ≤ pkt.availEnd) ∧
      pkt.availStart ≤ pkt.availEnd ∧
      (poslist.length = 1 → pkt.availStart = pkt.availEnd) := by
  obtain ⟨acc2, hloop, h1, h2, h3⟩ :=
    trackLoop_wf poslist { start := dtMax, stop := dtMin, results := [] } hwf
  have hgen := gen_position_list_wf poslist hwf
  dsimp only at h1 h2
  have hts : poslist.filterMap PosRecord.parsed_time ≠ [] := by
    cases poslist with
    | nil => exact absurd rfl hne
    | cons q qs =>
      obtain ⟨t, lon, lat, alt, ht, _, _, _⟩ :=
        wfSample_fields (hwf q (List.mem_cons_self q qs))
      rw [List.filterMap_cons, ht]
      simp
  obtain ⟨t0, ht0⟩ := List.exists_mem_of_ne_nil _ hts
  have hstart_mem : acc2.start ∈ poslist.filterMap PosRecord.parsed_time := by
    rcases List.mem_cons.mp
        (foldl_min_mem_cons (poslist.filterMap PosRecord.parsed_time) dtMax) with hc | hc
    · have hle : acc2.start ≤ t0 := by
        rw [h1]; exact foldl_min_le_mem _ dtMax t0 ht0
      have heq : acc2.start = t0 := le_antisymm hle (by
        rw [h1, hc]
        exact (hrange t0 ht0).2)
      rw [heq]; exact ht0
    · rw [h1]; exact hc
  have hstop_mem : acc2.stop ∈ poslist.filterMap PosRecord.parsed_time := by
    rcases List.mem_cons.mp
        (foldl_max_mem_cons (poslist.filterMap PosRecord.parsed_time) dtMin) with hc | hc
    · have hle : t0 ≤ acc2.stop := by
        rw [h2]; exact foldl_max_mem_le _ dtMin t0 ht0
      have heq : acc2.stop = t0 := le_antisymm (by
        rw [h2, hc]
        exact (hrange t0 ht0).1) hle
      rw [heq]; exact ht0
    · rw [h2]; exact hc
  have hbounds : ∀ t ∈ poslist.filterMap PosRecord.parsed_time,
      acc2.start ≤ t ∧ t ≤ acc2.stop := by
    intro t ht
    exact ⟨by rw [h1]; exact foldl_min_le_mem _ dtMax t ht,
           by rw [h2]; exact foldl_max_mem_le _ dtMin t ht⟩
  refine ⟨{ id := v, availStart := acc2.start, availEnd := acc2.stop,
            position := poslist.flatMap coordGroup }, ?_, hstart_mem, hstop_mem,
          hbounds, (hbounds acc2.start hstart_mem).2, ?_⟩
  · rw [gen_habhub_vehicle_track, hloop, hgen]
  · intro hlen
    obtain ⟨q, hq⟩ := List.length_eq_one.mp hlen
    subst hq
    obtain ⟨t, lon, lat, alt, ht, _, _, _⟩ :=
      wfSample_fields (hwf q (List.mem_cons_self q []))
    rw [List.filterMap_cons, ht] at h1 h2
    have h1t : acc2.start = min dtMax t := h1
    have h2t : acc2.stop = max dtMin t := h2
    have htr := hrange t (by rw [List.filterMap_cons, ht]; exact List.mem_cons_self t _)
    rw [h1t, h2t, min_eq_right htr.2, max_eq_right htr.1]

/-- Witness for C6 on a one-sample list. -/
theorem c6_witness :
    gen_position_list [sampleStored] = .ok ([sampleStored].flatMap coordGroup) ∧
    ([sampleStored].flatMap coordGroup).length = 4 * [sampleStored].length :=
  c6_position_list_four_values_per_sample [sampleStored] (by decide)

/-- Witness for C7 on a single-sample track. -/
theorem c7_witness :
    ∃ pkt, gen_habhub_vehicle_track "A" [sampleStored] = .ok pkt ∧
      pkt.availStart ∈ [sampleStored].filterMap PosRecord.parsed_time ∧
      pkt.availEnd ∈ [sampleStored].filterMap PosRecord.parsed_time ∧
      (∀ t ∈ [sampleStored].filterMap PosRecord.parsed_time,
        pkt.availStart ≤ t ∧ t ≤ pkt.availEnd) ∧
      pkt.availStart ≤ pkt.availEnd ∧
      ([sampleStored].length = 1 → pkt.availStart = pkt.availEnd) :=
  c7_availability_interval_min_max "A" [sampleStored]
    (by decide) (by decide) (by decide)

theorem trackLoop_missing : ∀ (pre : List PosRecord) (acc : TrackAcc)
    (p : PosRecord) (post : List PosRecord),
    (∀ q ∈ pre, wfSample q = true) → p.parsed_time = none →
    trackLoop acc (pre ++ p :: post) = .error .missingKey := by
  intro pre
  induction pre with
  | nil =>
    intro acc p post _ hp
    have hstep : trackStep acc p = .error .missingKey := by
      rw [trackStep, hp]
    rw [List.nil_append, trackLoop, hstep]
  | cons q pre ih =>
    intro acc p post h hp
    obtain ⟨t, lon, lat, alt, ht, hlon, hlat, halt⟩ :=
      wfSample_fields (h q (List.mem_cons_self q pre))
    rw [List.cons_append, trackLoop, trackStep_eq acc ht hlon hlat halt]
    exact ih _ p post (fun r hr => h r (List.mem_cons_of_mem q hr)) hp

theorem gen_habhub_missing (v : String) (pre post : List PosRecord)
    (p : PosRecord) (hpre : ∀ q ∈ pre, wfSample q = true)
    (hp : p.parsed_time = none) :
    gen_habhub_vehicle_track v (pre ++ p :: post) = .error .missingKey := by
  rw [gen_habhub_vehicle_track, trackLoop_missing pre _ p post hpre hp]

/-- C10: a record that passes the spatial test but lacks a `gps_time`
field is appended to its vehicle's sample list with no parsed timestamp
attached (`parsed_time` stays absent), and exporting any track
containing such a sample fails with a missing-key error at the
`parsed_time` lookup instead of producing a coordinate sequence. -/
theorem c10_missing_gps_time_export_keyerror (bbox : BoundingBox)
    (after before : Timestamp) (st : SelectState) (p : PosRecord)
    (v : String) (pre post : List PosRecord)
    (hb : bbox.habhub_pos_in_bbox p = .ok true)
    (hg : p.gps_time = none)
    (hpt : p.parsed_time = none)
    (hkey : (st.vehicles.any fun kv => kv.1 == p.vehicle) = true)
    (hpre : ∀ q ∈ pre, wfSample q = true) :
    (∃ st2, selectStep bbox after before st p = .ok st2 ∧
      lookupVal st2.vehicles p.vehicle =
        (lookupVal st.vehicles p.vehicle).map (fun l => l ++ [p])) ∧
    gen_habhub_vehicle_track v (pre ++ p :: post) = .error .missingKey := by
  constructor
  · have hs : selectStep bbox after before st p =
        .ok { st with vehicles := st.vehicles.map fun kv =>
                if kv.1 == p.vehicle then (kv.1, kv.2 ++ [p]) else kv } := by
      rw [selectStep_eq_notime hb hg, appendVehicle_ok st.vehicles p.vehicle p hkey]
    exact ⟨_, hs, lookupVal_appendUpdate st.vehicles p.vehicle p⟩
  · exact gen_habhub_missing v pre post p hpre hpt

/-- Witness for C10 at a concrete state and track. -/
theorem c10_witness :
    (∃ st2, selectStep defaultBBox dtMin dtMax
        { vehicles := [("A", [])], first_seen := dtMax, last_seen := dtMin }
        sampleNoTime = .ok st2 ∧
      lookupVal st2.vehicles sampleNoTime.vehicle =
        (lookupVal ([("A", [])] : VehicleMap) sampleNoTime.vehicle).map
          (fun l => l ++ [sampleNoTime])) ∧
    gen_habhub_vehicle_track "A" ([sampleStored] ++ sampleNoTime :: []) =
      .error .missingKey :=
  c10_missing_gps_time_export_keyerror defaultBBox dtMin dtMax
    { vehicles := [("A", [])], first_seen := dtMax, last_seen := dtMin }
    sampleNoTime "A" [sampleStored] []
    (by rfl) (by rfl) (by rfl) (by rfl) (by decide)

theorem habhub_err_of_missing {b : BoundingBox} {p : PosRecord}
    (h : p.gps_lat = none ∨ p.gps_lon = none ∨ p.gps_alt = none) :
    b.habhub_pos_in_bbox p = .error .malformedCoord := by
  rw [BoundingBox.habhub_pos_in_bbox]
  rcases h with h | h | h
  · rw [h]
  · rw [h]
    rcases hlat : p.gps_lat with _ | lat <;> rfl
  · rw [h]
    rcases hlat : p.gps_lat with _ | lat <;>
      rcases hlon : p.gps_lon with _ | lon <;> rfl

theorem selectLoop_append (bbox : BoundingBox) (after before : Timestamp) :
    ∀ (xs ys : List PosRecord) (st : SelectState),
    selectLoop bbox after before st (xs ++ ys) =
      match selectLoop bbox after before st xs with
      | .error e => .error e
      | .ok st1 => selectLoop bbox after before st1 ys := by
  intro xs
  induction xs with
  | nil => intro ys st; rfl
  | cons p xs ih =>
    intro ys st
    cases hs : selectStep bbox after before st p with
    | error e =>
      rw [List.cons_append,
        selectLoop_cons_err bbox after before st p (xs ++ ys) e hs,
        selectLoop_cons_err bbox after before st p xs e hs]
    | ok st1 =>
      rw [List.cons_append,
        selectLoop_cons bbox after before st st1 p (xs ++ ys) hs,
        selectLoop_cons bbox after before st st1 p xs hs]
      exact ih ys st1

/-- C1 counterexample: a record with a non-numeric coordinate (or an
in-box record with an unparseable timestamp) aborts the whole batch:
`select_vehicles` (and `gen_czml`) return an error and the following
well-formed record is never processed, contradicting the claim that
such a record is rejected while processing continues. -/
theorem c1_malformed_record_aborts_batch :
    sampleBadLon.gps_lon = none ∧
    select_vehicles defaultBBox dtMin dtMax [sampleBadLon, sampleInBox] =
      .error .malformedCoord ∧
    gen_czml defaultBBox dtMin dtMax [sampleBadLon, sampleInBox] =
      .error .malformedCoord ∧
    select_vehicles defaultBBox dtMin dtMax [sampleBadTime, sampleInBox] =
      .error .badTimestamp :=
  ⟨rfl, rfl, rfl, rfl⟩

/-- C1 (amended): a record whose `gps_lat`, `gps_lon` or `gps_alt` is
non-numeric, or an in-box record whose `gps_time` does not parse,
raises an uncaught error that aborts processing of the entire batch
(the remaining records are not processed); there is no per-record
recovery in `select_vehicles`. -/
theorem c1_amended_malformed_record_aborts (bbox : BoundingBox)
    (after before : Timestamp) (pre post : List PosRecord) (p : PosRecord)
    (st : SelectState)
    (hpre : selectLoop bbox after before
      { vehicles := seedVehicles (pre ++ p :: post),
        first_seen := dtMax, last_seen := dtMin } pre = .ok st)
    (hbad : p.gps_lat = none ∨ p.gps_lon = none ∨ p.gps_alt = none ∨
      (bbox.habhub_pos_in_bbox p = .ok true ∧ p.gps_time = some none)) :
    ∃ e, select_vehicles bbox after before (pre ++ p :: post) = .error e := by
  have hstep : ∃ e, selectStep bbox after before st p = .error e := by
    rcases hbad with h | h | h | ⟨hb, hg⟩
    · exact ⟨.malformedCoord, selectStep_eq_badcoord (habhub_err_of_missing (Or.inl h))⟩
    · exact ⟨.malformedCoord,
        selectStep_eq_badcoord (habhub_err_of_missing (Or.inr (Or.inl h)))⟩
    · exact ⟨.malformedCoord,
        selectStep_eq_badcoord (habhub_err_of_missing (Or.inr (Or.inr h)))⟩
    · exact ⟨.badTimestamp, selectStep_eq_badtime hb hg⟩
  obtain ⟨e, he⟩ := hstep
  refine ⟨e, ?_⟩
  rw [select_vehicles, selectLoop_append, hpre]
  exact selectLoop_cons_err bbox after before st p post e he

/-- Witness for the amended C1. -/
theorem c1_amended_witness :
    ∃ e, select_vehicles defaultBBox dtMin dtMax
      ([] ++ sampleBadLon :: [sampleInBox]) = .error e :=
  c1_amended_malformed_record_aborts defaultBBox dtMin dtMax [] [sampleInBox]
    sampleBadLon
    { vehicles := seedVehicles ([] ++ sampleBadLon :: [sampleInBox]),
      first_seen := dtMax, last_seen := dtMin }
    (by rfl) (Or.inr (Or.inl rfl))

/-- C2 counterexample: `sampleNegLon` is syntactically valid (all
coordinate strings numeric, timestamp parseable), yet under the default
volume (`lon ∈ [0, 360]`) and the default window it is filtered out:
its vehicle's list stays empty after the run. -/
theorem c2_default_filters_valid_record :
    sampleNegLon.gps_lat = some 46 ∧
    sampleNegLon.gps_lon = some (-15) ∧
    sampleNegLon.gps_alt = some 10000 ∧
    sampleNegLon.gps_time = some (some 100) ∧
    acceptsRecord defaultBBox dtMin dtMax sampleNegLon = false ∧
    select_vehicles defaultBBox dtMin dtMax [sampleNegLon] =
      .ok { vehicles := [("A", [])], first_seen := dtMax, last_seen := dtMin } :=
  ⟨rfl, rfl, rfl, rfl, rfl, rfl⟩

/-- C2 (amended): with the default bounding volume and default time
window, a syntactically valid record is accepted iff its coordinates
lie inside the default volume (`alt ∈ [0, 100000]`, `lat ∈ [-90, 90]`,
`lon ∈ [0, 360]`); the default window never rejects a representable
timestamp, but records outside the default volume (e.g. negative
longitude) are filtered out. -/
theorem c2_amended_default_accept_iff (p : PosRecord) (lat lon alt : ℚ)
    (hlat : p.gps_lat = some lat) (hlon : p.gps_lon = some lon)
    (halt2 : p.gps_alt = some alt)
    (ht : (∃ t, p.gps_time = some (some t) ∧ dtMin ≤ t ∧ t ≤ dtMax) ∨
      p.gps_time = none) :
    (acceptsRecord defaultBBox dtMin dtMax p = true ↔
      (0 ≤ alt ∧ alt ≤ 100000 ∧ -90 ≤ lat ∧ lat ≤ 90 ∧ 0 ≤ lon ∧ lon ≤ 360)) := by
  have hbb : defaultBBox.habhub_pos_in_bbox p =
      .ok (defaultBBox.within_box lat lon alt) := by
    rw [BoundingBox.habhub_pos_in_bbox, hlat, hlon, halt2]
  cases hwb : defaultBBox.within_box lat lon alt
  · rw [hwb] at hbb
    refine iff_of_false ?_ ?_
    · rw [acceptsRecord_eq_out hbb]
      simp
    · intro hc
      have hthis : defaultBBox.within_box lat lon alt = true := by
        rw [within_box_eq_true]
        exact ⟨hc.1, hc.2.1, hc.2.2.1, hc.2.2.2.1, hc.2.2.2.2.1, hc.2.2.2.2.2⟩
      simp [hwb] at hthis
  · rw [hwb] at hbb
    have hbounds : 0 ≤ alt ∧ alt ≤ 100000 ∧ -90 ≤ lat ∧ lat ≤ 90 ∧
        0 ≤ lon ∧ lon ≤ 360 :=
      (within_box_eq_true defaultBBox lat lon alt).mp hwb
    rcases ht with ⟨t, hg, h1, h2⟩ | hg
    · rw [acceptsRecord_eq_time hbb hg]
      have hdec : (decide (t < dtMin) || decide (t > dtMax)) = false := by
        simp only [Bool.or_eq_false_iff, decide_eq_false_iff_not, not_lt]
        exact ⟨h1, h2⟩
      rw [hdec]
      exact iff_of_true rfl hbounds
    · rw [acceptsRecord_eq_notime hbb hg]
      exact iff_of_true rfl hbounds

/-- Witness for the amended C2 at a concrete in-volume record. -/
theorem c2_amended_witness :
    acceptsRecord defaultBBox dtMin dtMax sampleInBox = true ↔
      (0 ≤ (10000 : ℚ) ∧ (10000 : ℚ) ≤ 100000 ∧ -90 ≤ (46 : ℚ) ∧
        (46 : ℚ) ≤ 90 ∧ 0 ≤ (15 : ℚ) ∧ (15 : ℚ) ≤ 360) :=
  c2_amended_default_accept_iff sampleInBox 46 15 10000 rfl rfl rfl
    (Or.inl ⟨100, rfl, by decide, by decide⟩)

/-- C5: the spatial test is inclusive on all six bounds: a point is
accepted iff `min_lat ≤ lat ≤ max_lat`, `min_lon ≤ lon ≤ max_lon` and
`min_elevation ≤ altitude ≤ max_elevation`; hence a record exactly at
any bound is accepted and a record strictly outside any single bound is
rejected. -/
theorem c5_spatial_test_inclusive_bounds (b : BoundingBox) (lat lon ele : ℚ) :
    b.within_box lat lon ele = true ↔
      (b.min_lat ≤ lat ∧ lat ≤ b.max_lat ∧ b.min_lon ≤ lon ∧ lon ≤ b.max_lon ∧
        b.min_ele ≤ ele ∧ ele ≤ b.max_ele) := by
  rw [within_box_eq_true]
  tauto
